import Mathlib

/-!
Shallow embedding of the content-filter core of the AdGuard browser extension
(`MultiMap` and `ContentFilter` from the content-filter module), together with
theorems about rule bookkeeping: adding and removing regular and exception
rules, the lazy rebuild gated by the `dirty` flag, domain queries and element
matching.

Rules are external objects referenced by identity and mutated in place
(their restricted-domain sets change). The embedding splits a rule into an
immutable record (`Rule`, with an `id` standing for object identity) and a
heap `Nat → Finset String` giving each rule object's current restricted-domain
set, carried inside the `ContentFilter` state.
-/

namespace AdguardContent

/-- An external rule object, as consumed by the content filter: a tag name,
an elements-filter string used as the grouping key of the exception index,
the whitelist flag, and the rule's permitted-domain set. `id` models JS
reference identity; the mutable restricted-domain set lives in the
`ContentFilter` heap, keyed by `id`. Fields that JS leaves `undefined` are
`none`. -/
structure Rule where
  id : Nat
  tagName : Option String
  elementsFilter : Option String
  whiteListRule : Bool
  permittedDomains : Finset String
deriving DecidableEq

/-- JS truthiness of a string-or-undefined value: `undefined`, `null` and the
empty string are falsy (the `if (!rule.tagName)` check in `addRule`). -/
def truthy : Option String → Bool
  | none => false
  | some s => !(s == "")

/-- JS property access coerces the key to a string: an `undefined`
`elementsFilter` indexes the map under the string key "undefined". -/
def keyStr : Option String → String
  | none => "undefined"
  | some s => s

namespace Collections

/-- Modelled from the spec: `adguard.utils.collections.removeRule` is called by
`MultiMap.remove` and `ContentFilter.removeRule` but its definition is not under
src/. Per the spec it removes the first occurrence of the value from the array,
compared by identity, and is a no-op when the value is absent. -/
def removeRule : List Rule → Rule → List Rule
  | [], _ => []
  | x :: xs, r => if x = r then xs else x :: removeRule xs r

end Collections

/-- The `MultiMap` of the source: a string-keyed map of arrays of rules plus a
counter of non-empty keys. An absent key is represented by the empty list,
which the source never stores: `put` creates a singleton, `remove` deletes a
key whose array becomes empty. -/
structure MultiMap where
  map : String → List Rule
  size : Nat

namespace MultiMap

/-- The freshly constructed map: `this.map = Object.create(null); this.size = 0`. -/
def empty : MultiMap := { map := fun _ => [], size := 0 }

/-- `put(key, value)`: create the array (and bump `size`) if the key is new,
then push the value. -/
def put (m : MultiMap) (key : String) (value : Rule) : MultiMap :=
  if m.map key = [] then
    { map := fun k => if k = key then [value] else m.map k, size := m.size + 1 }
  else
    { m with map := fun k => if k = key then m.map k ++ [value] else m.map k }

/-- `remove(key, value)`: return if the key is absent; otherwise remove the
first occurrence of the value, and if the array became empty delete the key
and decrement `size`. -/
def remove (m : MultiMap) (key : String) (value : Rule) : MultiMap :=
  let values := m.map key
  if values = [] then m
  else
    let values' := Collections.removeRule values value
    if values' = [] then
      { map := fun k => if k = key then [] else m.map k, size := m.size - 1 }
    else
      { m with map := fun k => if k = key then values' else m.map k }

/-- `get(key)`: the array for the key (absent keys yield the empty list,
standing for `undefined`). -/
def get (m : MultiMap) (key : String) : List Rule := m.map key

/-- `clear()`: the source replaces the backing map with a fresh one but does
NOT reset `this.size` — the counter keeps its old value. -/
def clear (m : MultiMap) : MultiMap :=
  { m with map := fun _ => [] }

/-- `isEmpty()`: `this.size === 0`. -/
def isEmpty (m : MultiMap) : Bool := m.size == 0

end MultiMap

/-- The `ContentFilter` state: the ordered regular-rule collection, the
exception index, the dirty flag, and the heap of rule objects' mutable
restricted-domain sets (keyed by rule identity). -/
structure ContentFilter where
  contentRules : List Rule
  exceptionRulesMap : MultiMap
  dirty : Bool
  restricted : Nat → Finset String

namespace Rule

/-- Modelled from the spec: `getPermittedDomains()` returns the rule's
permitted-domain set. -/
def getPermittedDomains (r : Rule) : Finset String := r.permittedDomains

/-- Modelled from the spec: `isPermitted(domain)` decides whether the rule may
act on the domain from its own permitted and restricted domain sets — allowed
when the permitted set is unrestricted (empty) or contains the domain, and the
restricted set (read from the heap `h`) does not contain it. -/
def isPermitted (r : Rule) (h : Nat → Finset String) (domainName : String) : Bool :=
  (decide (r.permittedDomains = ∅) || decide (domainName ∈ r.permittedDomains)) &&
    !(decide (domainName ∈ h r.id))

end Rule

/-- Modelled from the spec: `rule.addRestrictedDomains(S)` merges `S` into the
rule object's restricted-domain set, `S_R := S_R ∪ S`. -/
def addRestrictedDomains (h : Nat → Finset String) (r : Rule) (ds : Finset String) :
    Nat → Finset String :=
  fun i => if i = r.id then h i ∪ ds else h i

/-- Modelled from the spec: `rule.removeRestrictedDomains(S)` subtracts `S`
from the rule object's restricted-domain set, `S_R := S_R \ S`. -/
def removeRestrictedDomains (h : Nat → Finset String) (r : Rule) (ds : Finset String) :
    Nat → Finset String :=
  fun i => if i = r.id then h i \ ds else h i

namespace ContentFilter

/-- A freshly constructed, empty content filter whose rule objects carry no
restricted domains yet. -/
def empty : ContentFilter :=
  { contentRules := [], exceptionRulesMap := MultiMap.empty, dirty := false,
    restricted := fun _ => ∅ }

/-- `addRule(rule)`: ignore rules with a falsy `tagName`; route whitelist rules
into the exception index under their `elementsFilter` key and others into
`contentRules`; set `dirty`. -/
def addRule (cf : ContentFilter) (rule : Rule) : ContentFilter :=
  if truthy rule.tagName = false then cf
  else if rule.whiteListRule then
    { cf with
      exceptionRulesMap := cf.exceptionRulesMap.put (keyStr rule.elementsFilter) rule,
      dirty := true }
  else
    { cf with contentRules := cf.contentRules ++ [rule], dirty := true }

/-- `rollbackExceptionRule(exceptionRule)`: for a whitelist rule, walk
`contentRules` and remove the exception's permitted domains from the
restricted-domain set of every rule with the same (strictly compared)
`elementsFilter`; a no-op for non-whitelist rules. -/
def rollbackExceptionRule (cf : ContentFilter) (exceptionRule : Rule) : ContentFilter :=
  if exceptionRule.whiteListRule = false then cf
  else
    { cf with restricted :=
        cf.contentRules.foldl (fun h rule =>
          if rule.elementsFilter = exceptionRule.elementsFilter then
            removeRestrictedDomains h rule exceptionRule.getPermittedDomains
          else h) cf.restricted }

/-- `removeRule(rule)`: remove from `contentRules` (first occurrence, by
identity), remove from the exception index under the rule's key, roll back the
rule's exception effect unconditionally, and set `dirty`. -/
def removeRule (cf : ContentFilter) (rule : Rule) : ContentFilter :=
  let cf1 := { cf with contentRules := Collections.removeRule cf.contentRules rule }
  let cf2 := { cf1 with
    exceptionRulesMap := cf1.exceptionRulesMap.remove (keyStr rule.elementsFilter) rule }
  let cf3 := cf2.rollbackExceptionRule rule
  { cf3 with dirty := true }

/-- `applyExceptionRule(rule, exceptionRule)`: if the `elementsFilter`s differ
(strict comparison) do nothing, else add the exception's permitted domains to
the regular rule's restricted-domain set. -/
def applyExceptionRule (cf : ContentFilter) (rule exceptionRule : Rule) : ContentFilter :=
  if rule.elementsFilter ≠ exceptionRule.elementsFilter then cf
  else
    { cf with restricted :=
        addRestrictedDomains cf.restricted rule exceptionRule.getPermittedDomains }

/-- `applyExceptionRules(rule)`: look up the exception rules stored under the
rule's `elementsFilter` key and apply each in order. -/
def applyExceptionRules (cf : ContentFilter) (rule : Rule) : ContentFilter :=
  let exceptionRules := cf.exceptionRulesMap.get (keyStr rule.elementsFilter)
  exceptionRules.foldl (fun c er => c.applyExceptionRule rule er) cf

/-- `rebuild()`: a no-op unless `dirty`; when the exception index reports
non-empty, apply the exception rules to every content rule; finally clear
`dirty` unconditionally. -/
def rebuild (cf : ContentFilter) : ContentFilter :=
  if cf.dirty = false then cf
  else
    let cf' :=
      if cf.exceptionRulesMap.isEmpty = false then
        cf.contentRules.foldl (fun c rule => c.applyExceptionRules rule) cf
      else cf
    { cf' with dirty := false }

/-- `getRulesForDomain(domainName)`: rebuild if dirty, then collect (in order)
the content rules whose `isPermitted` accepts the domain; the result stays
`null` when no rule matched. Returns the post-query state along with the
result. -/
def getRulesForDomain (cf : ContentFilter) (domainName : String) :
    ContentFilter × Option (List Rule) :=
  let cf1 := if cf.dirty then cf.rebuild else cf
  (cf1, cf1.contentRules.foldl (fun result rule =>
    if rule.isPermitted cf1.restricted domainName then
      match result with
      | none => some [rule]
      | some l => some (l ++ [rule])
    else result) none)

/-- `getMatchedElementsForRules(doc, rules)`: `null` for a `null` or empty rule
list; otherwise concatenate each rule's non-empty matched-element list in rule
order, the result staying `null` when every rule yields nothing. The external
per-rule traversal capability is the parameter `tr`. -/
def getMatchedElementsForRules {Doc Elem : Type} (tr : Rule → Doc → List Elem)
    (doc : Doc) (rules : Option (List Rule)) : Option (List Elem) :=
  match rules with
  | none => none
  | some rs =>
    if rs = [] then none
    else rs.foldl (fun result rule =>
      if 0 < (tr rule doc).length then
        match result with
        | none => some (tr rule doc)
        | some l => some (l ++ tr rule doc)
      else result) none

/-- `getMatchedElements(doc, domainName)`: rebuild if dirty, query the rules
for the domain, and return `null` when that query is `null`, otherwise the
matched elements of the applicable rules. Returns the post-query state along
with the result. -/
def getMatchedElements {Doc Elem : Type} (tr : Rule → Doc → List Elem)
    (cf : ContentFilter) (doc : Doc) (domainName : String) :
    ContentFilter × Option (List Elem) :=
  let cf := if cf.dirty then cf.rebuild else cf
  let p := cf.getRulesForDomain domainName
  match p.2 with
  | some rules => (p.1, getMatchedElementsForRules tr doc (some rules))
  | none => (p.1, none)

/-- The constructor: an optional initial rule collection is added in order via
`addRule` to the fresh state. -/
def create (rules : List Rule) : ContentFilter :=
  rules.foldl (fun c r => c.addRule r) ContentFilter.empty

end ContentFilter

/-! ### Lemmas about `Collections.removeRule` -/

namespace Collections

theorem removeRule_of_not_mem (l : List Rule) (r : Rule) (h : r ∉ l) :
    removeRule l r = l := by
  induction l with
  | nil => rfl
  | cons x xs ih =>
    simp only [List.mem_cons, not_or] at h
    have hxr : ¬(x = r) := fun he => h.1 he.symm
    simp only [removeRule, if_neg hxr, ih h.2]

theorem mem_removeRule {x : Rule} (l : List Rule) (r : Rule) (h : x ∈ removeRule l r) :
    x ∈ l := by
  induction l with
  | nil => simp [removeRule] at h
  | cons y ys ih =>
    simp only [removeRule] at h
    by_cases hyr : y = r
    · rw [if_pos hyr] at h
      exact List.mem_cons_of_mem y h
    · rw [if_neg hyr] at h
      rcases List.mem_cons.mp h with h | h
      · exact List.mem_cons.mpr (Or.inl h)
      · exact List.mem_cons_of_mem y (ih h)

theorem mem_removeRule_of_ne {x : Rule} (l : List Rule) (r : Rule) (hx : x ∈ l)
    (hne : x ≠ r) : x ∈ removeRule l r := by
  induction l with
  | nil => simp at hx
  | cons y ys ih =>
    simp only [removeRule]
    by_cases hyr : y = r
    · rw [if_pos hyr]
      rcases List.mem_cons.mp hx with h | h
      · exact absurd (h.trans hyr) hne
      · exact h
    · rw [if_neg hyr]
      rcases List.mem_cons.mp hx with h | h
      · exact List.mem_cons.mpr (Or.inl h)
      · exact List.mem_cons_of_mem y (ih h)

theorem count_removeRule (l : List Rule) (r : Rule) (h : r ∈ l) :
    (removeRule l r).count r + 1 = l.count r := by
  induction l with
  | nil => simp at h
  | cons y ys ih =>
    simp only [removeRule]
    by_cases hyr : y = r
    · rw [if_pos hyr, hyr, List.count_cons_self]
    · rw [if_neg hyr]
      have hmem : r ∈ ys := by
        rcases List.mem_cons.mp h with h | h
        · exact absurd h.symm hyr
        · exact h
      have hih := ih hmem
      have hb : (r == y) = false := by
        simp only [beq_eq_false_iff_ne, ne_eq]
        exact fun he => hyr he.symm
      simp only [List.count_cons, hb, if_false]
      omega

theorem ne_nil_of_mem {x : Rule} {l : List Rule} (h : x ∈ l) : l ≠ [] := by
  intro hnil
  rw [hnil] at h
  simp at h

end Collections

/-! ### Lemmas about `MultiMap` -/

namespace MultiMap

theorem put_map_self (m : MultiMap) (k : String) (v : Rule) :
    (m.put k v).map k = m.map k ++ [v] := by
  unfold put
  by_cases h : m.map k = []
  · rw [if_pos h]
    simp [h]
  · rw [if_neg h]
    simp

theorem put_size (m : MultiMap) (k : String) (v : Rule) :
    (m.put k v).size = if m.map k = [] then m.size + 1 else m.size := by
  unfold put
  by_cases h : m.map k = []
  · rw [if_pos h, if_pos h]
  · rw [if_neg h, if_neg h]

theorem put_map_other (m : MultiMap) (k k' : String) (v : Rule) (h : k' ≠ k) :
    (m.put k v).map k' = m.map k' := by
  unfold put
  by_cases hk : m.map k = []
  · rw [if_pos hk]
    simp [if_neg h]
  · rw [if_neg hk]
    simp [if_neg h]

theorem mem_put {x : Rule} (m : MultiMap) (k k' : String) (v : Rule)
    (h : x ∈ (m.put k v).map k') : x ∈ m.map k' ∨ x = v := by
  by_cases hk : k' = k
  · subst hk
    rw [put_map_self] at h
    rcases List.mem_append.mp h with h | h
    · exact Or.inl h
    · exact Or.inr (by simpa using h)
  · rw [put_map_other m k k' v hk] at h
    exact Or.inl h

theorem mem_remove {x : Rule} (m : MultiMap) (k k' : String) (v : Rule)
    (h : x ∈ (m.remove k v).map k') : x ∈ m.map k' := by
  unfold remove at h
  by_cases h0 : m.map k = []
  · rw [if_pos h0] at h
    exact h
  · rw [if_neg h0] at h
    by_cases h1 : Collections.removeRule (m.map k) v = []
    · simp only [if_pos h1] at h
      by_cases hk : k' = k
      · subst hk
        simp at h
      · simpa [if_neg hk] using h
    · simp only [if_neg h1] at h
      by_cases hk : k' = k
      · subst hk
        simp only [if_pos rfl] at h
        exact Collections.mem_removeRule _ v h
      · simpa [if_neg hk] using h

theorem remove_map_of_not_mem (m : MultiMap) (k : String) (v : Rule)
    (h : v ∉ m.map k) : (m.remove k v).map = m.map := by
  unfold remove
  by_cases h0 : m.map k = []
  · rw [if_pos h0]
  · rw [if_neg h0]
    have hr : Collections.removeRule (m.map k) v = m.map k :=
      Collections.removeRule_of_not_mem _ v h
    rw [hr, if_neg h0]
    funext k'
    by_cases hk : k' = k
    · subst hk
      simp
    · simp [if_neg hk]

theorem remove_size_of_not_mem (m : MultiMap) (k : String) (v : Rule)
    (h : v ∉ m.map k) : (m.remove k v).size = m.size := by
  unfold remove
  by_cases h0 : m.map k = []
  · rw [if_pos h0]
  · rw [if_neg h0]
    have hr : Collections.removeRule (m.map k) v = m.map k :=
      Collections.removeRule_of_not_mem _ v h
    rw [hr, if_neg h0]

end MultiMap

/-! ### Frame, monotonicity and coverage lemmas for the rebuild machinery -/

namespace ContentFilter

theorem applyExceptionRule_frame (cf : ContentFilter) (r e : Rule) :
    (cf.applyExceptionRule r e).contentRules = cf.contentRules ∧
    (cf.applyExceptionRule r e).exceptionRulesMap = cf.exceptionRulesMap ∧
    (cf.applyExceptionRule r e).dirty = cf.dirty := by
  unfold applyExceptionRule
  split <;> exact ⟨rfl, rfl, rfl⟩

theorem applyFoldE_frame (rule : Rule) (l : List Rule) :
    ∀ cf : ContentFilter,
      (l.foldl (fun c er => c.applyExceptionRule rule er) cf).contentRules = cf.contentRules ∧
      (l.foldl (fun c er => c.applyExceptionRule rule er) cf).exceptionRulesMap
        = cf.exceptionRulesMap ∧
      (l.foldl (fun c er => c.applyExceptionRule rule er) cf).dirty = cf.dirty := by
  induction l with
  | nil => intro cf; exact ⟨rfl, rfl, rfl⟩
  | cons e es ih =>
    intro cf
    have h1 := applyExceptionRule_frame cf rule e
    have h2 := ih (cf.applyExceptionRule rule e)
    simp only [List.foldl_cons]
    exact ⟨h2.1.trans h1.1, h2.2.1.trans h1.2.1, h2.2.2.trans h1.2.2⟩

theorem applyExceptionRules_frame (cf : ContentFilter) (rule : Rule) :
    (cf.applyExceptionRules rule).contentRules = cf.contentRules ∧
    (cf.applyExceptionRules rule).exceptionRulesMap = cf.exceptionRulesMap ∧
    (cf.applyExceptionRules rule).dirty = cf.dirty := by
  unfold applyExceptionRules
  exact applyFoldE_frame rule _ cf

theorem applyFoldR_frame (l : List Rule) :
    ∀ cf : ContentFilter,
      (l.foldl (fun c rule => c.applyExceptionRules rule) cf).contentRules = cf.contentRules ∧
      (l.foldl (fun c rule => c.applyExceptionRules rule) cf).exceptionRulesMap
        = cf.exceptionRulesMap ∧
      (l.foldl (fun c rule => c.applyExceptionRules rule) cf).dirty = cf.dirty := by
  induction l with
  | nil => intro cf; exact ⟨rfl, rfl, rfl⟩
  | cons r rs ih =>
    intro cf
    have h1 := applyExceptionRules_frame cf r
    have h2 := ih (cf.applyExceptionRules r)
    simp only [List.foldl_cons]
    exact ⟨h2.1.trans h1.1, h2.2.1.trans h1.2.1, h2.2.2.trans h1.2.2⟩

theorem rebuild_frame (cf : ContentFilter) :
    (cf.rebuild).contentRules = cf.contentRules ∧
    (cf.rebuild).exceptionRulesMap = cf.exceptionRulesMap ∧
    (cf.rebuild).dirty = false := by
  unfold rebuild
  by_cases h : cf.dirty = false
  · rw [if_pos h]
    exact ⟨rfl, rfl, h⟩
  · rw [if_neg h]
    by_cases he : cf.exceptionRulesMap.isEmpty = false
    · rw [if_pos he]
      have hf := applyFoldR_frame cf.contentRules cf
      exact ⟨hf.1, hf.2.1, rfl⟩
    · rw [if_neg he]
      exact ⟨rfl, rfl, rfl⟩

theorem rebuild_of_clean (cf : ContentFilter) (h : cf.dirty = false) :
    cf.rebuild = cf := by
  unfold rebuild
  rw [if_pos h]

theorem applyExceptionRule_mono (cf : ContentFilter) (r e : Rule) (i : Nat) :
    cf.restricted i ⊆ (cf.applyExceptionRule r e).restricted i := by
  unfold applyExceptionRule
  split
  · exact Finset.Subset.refl _
  · show cf.restricted i ⊆ addRestrictedDomains cf.restricted r e.getPermittedDomains i
    unfold addRestrictedDomains
    by_cases hi : i = r.id
    · rw [if_pos hi]
      exact fun x hx => Finset.mem_union.mpr (Or.inl hx)
    · rw [if_neg hi]

theorem applyFoldE_mono (rule : Rule) (l : List Rule) :
    ∀ (cf : ContentFilter) (i : Nat),
      cf.restricted i ⊆ (l.foldl (fun c er => c.applyExceptionRule rule er) cf).restricted i := by
  induction l with
  | nil => intro cf i; exact Finset.Subset.refl _
  | cons e es ih =>
    intro cf i
    simp only [List.foldl_cons]
    exact Finset.Subset.trans (applyExceptionRule_mono cf rule e i)
      (ih (cf.applyExceptionRule rule e) i)

theorem applyExceptionRules_mono (cf : ContentFilter) (rule : Rule) (i : Nat) :
    cf.restricted i ⊆ (cf.applyExceptionRules rule).restricted i := by
  unfold applyExceptionRules
  exact applyFoldE_mono rule _ cf i

theorem applyFoldR_mono (l : List Rule) :
    ∀ (cf : ContentFilter) (i : Nat),
      cf.restricted i ⊆ (l.foldl (fun c rule => c.applyExceptionRules rule) cf).restricted i := by
  induction l with
  | nil => intro cf i; exact Finset.Subset.refl _
  | cons r rs ih =>
    intro cf i
    simp only [List.foldl_cons]
    exact Finset.Subset.trans (applyExceptionRules_mono cf r i)
      (ih (cf.applyExceptionRules r) i)

theorem applyExceptionRule_achieves (cf : ContentFilter) (r e : Rule)
    (h : r.elementsFilter = e.elementsFilter) :
    e.permittedDomains ⊆ (cf.applyExceptionRule r e).restricted r.id := by
  unfold applyExceptionRule
  rw [if_neg (not_not_intro h)]
  show e.permittedDomains ⊆ addRestrictedDomains cf.restricted r e.getPermittedDomains r.id
  unfold addRestrictedDomains
  rw [if_pos rfl]
  exact fun x hx => Finset.mem_union.mpr (Or.inr hx)

theorem applyFoldE_achieves (rule e : Rule) (hke : rule.elementsFilter = e.elementsFilter) :
    ∀ (l : List Rule), e ∈ l → ∀ cf : ContentFilter,
      e.permittedDomains ⊆
        (l.foldl (fun c er => c.applyExceptionRule rule er) cf).restricted rule.id := by
  intro l
  induction l with
  | nil => intro h; simp at h
  | cons x xs ih =>
    intro h cf
    simp only [List.foldl_cons]
    rcases List.mem_cons.mp h with he | he
    · subst he
      exact Finset.Subset.trans (applyExceptionRule_achieves cf rule e hke)
        (applyFoldE_mono rule xs (cf.applyExceptionRule rule e) rule.id)
    · exact ih he (cf.applyExceptionRule rule x)

theorem applyExceptionRules_achieves (cf : ContentFilter) (rule e : Rule)
    (he : e ∈ cf.exceptionRulesMap.get (keyStr rule.elementsFilter))
    (hke : rule.elementsFilter = e.elementsFilter) :
    e.permittedDomains ⊆ (cf.applyExceptionRules rule).restricted rule.id := by
  unfold applyExceptionRules
  exact applyFoldE_achieves rule e hke _ he cf

theorem applyFoldR_achieves (l : List Rule) :
    ∀ (cf : ContentFilter) (R E : Rule), R ∈ l →
      E ∈ cf.exceptionRulesMap.get (keyStr R.elementsFilter) →
      R.elementsFilter = E.elementsFilter →
      E.permittedDomains ⊆
        (l.foldl (fun c rule => c.applyExceptionRules rule) cf).restricted R.id := by
  induction l with
  | nil => intro cf R E hR; simp at hR
  | cons x xs ih =>
    intro cf R E hR hE hke
    simp only [List.foldl_cons]
    rcases List.mem_cons.mp hR with h | h
    · subst h
      exact Finset.Subset.trans (applyExceptionRules_achieves cf R E hE hke)
        (applyFoldR_mono xs (cf.applyExceptionRules R) R.id)
    · have hE' : E ∈ (cf.applyExceptionRules x).exceptionRulesMap.get (keyStr R.elementsFilter) := by
        unfold MultiMap.get
        rw [(applyExceptionRules_frame cf x).2.1]
        exact hE
      exact ih (cf.applyExceptionRules x) R E h hE' hke

theorem rebuild_achieves (cf : ContentFilter)
    (hwf : cf.exceptionRulesMap.size = 0 → ∀ k, cf.exceptionRulesMap.map k = [])
    (hd : cf.dirty = true) :
    ∀ R ∈ cf.contentRules, ∀ E ∈ cf.exceptionRulesMap.get (keyStr R.elementsFilter),
      R.elementsFilter = E.elementsFilter →
      E.permittedDomains ⊆ (cf.rebuild).restricted R.id := by
  intro R hR E hE hke
  unfold rebuild
  rw [if_neg (by rw [hd]; exact fun h => Bool.noConfusion h)]
  by_cases he : cf.exceptionRulesMap.isEmpty = false
  · rw [if_pos he]
    show E.permittedDomains ⊆
      (cf.contentRules.foldl (fun c rule => c.applyExceptionRules rule) cf).restricted R.id
    exact applyFoldR_achieves cf.contentRules cf R E hR hE hke
  · exfalso
    have hsz : cf.exceptionRulesMap.size = 0 := by
      have : cf.exceptionRulesMap.isEmpty = true := by
        cases hb : cf.exceptionRulesMap.isEmpty
        · exact absurd hb he
        · rfl
      unfold MultiMap.isEmpty at this
      exact beq_iff_eq.mp this
    have hmap := hwf hsz (keyStr R.elementsFilter)
    unfold MultiMap.get at hE
    rw [hmap] at hE
    simp at hE

theorem getRulesForDomain_fst (cf : ContentFilter) (d : String) :
    (cf.getRulesForDomain d).1 = if cf.dirty then cf.rebuild else cf := rfl

theorem getRulesForDomain_of_clean (cf : ContentFilter) (d : String) (h : cf.dirty = false) :
    (cf.getRulesForDomain d).1 = cf := by
  rw [getRulesForDomain_fst, if_neg (by rw [h]; exact fun hc => Bool.noConfusion hc)]

theorem getRulesForDomain_fst_dirty (cf : ContentFilter) (d : String) :
    (cf.getRulesForDomain d).1.dirty = false := by
  rw [getRulesForDomain_fst]
  by_cases h : cf.dirty
  · rw [if_pos h]
    exact (rebuild_frame cf).2.2
  · rw [if_neg h]
    exact Bool.eq_false_iff.mpr h

/-! ### The rollback pass, pointwise -/

theorem rollbackFold_eq (E : Rule) :
    ∀ (l : List Rule) (h : Nat → Finset String) (i : Nat),
      ((∃ r ∈ l, r.id = i ∧ r.elementsFilter = E.elementsFilter) →
        (l.foldl (fun hh rule =>
          if rule.elementsFilter = E.elementsFilter then
            removeRestrictedDomains hh rule E.getPermittedDomains
          else hh) h) i = h i \ E.permittedDomains) ∧
      ((¬∃ r ∈ l, r.id = i ∧ r.elementsFilter = E.elementsFilter) →
        (l.foldl (fun hh rule =>
          if rule.elementsFilter = E.elementsFilter then
            removeRestrictedDomains hh rule E.getPermittedDomains
          else hh) h) i = h i) := by
  intro l
  induction l with
  | nil =>
    intro h i
    constructor
    · rintro ⟨r, hr, _⟩
      simp at hr
    · intro _
      rfl
  | cons x xs ih =>
    intro h i
    simp only [List.foldl_cons]
    by_cases hx : x.elementsFilter = E.elementsFilter
    · rw [if_pos hx]
      by_cases hid : x.id = i
      · have hh1 : removeRestrictedDomains h x E.getPermittedDomains i
            = h i \ E.permittedDomains := by
          unfold removeRestrictedDomains
          rw [if_pos hid.symm]
          rfl
        constructor
        · intro _
          by_cases hex : ∃ r ∈ xs, r.id = i ∧ r.elementsFilter = E.elementsFilter
          · rw [(ih _ i).1 hex, hh1, sdiff_idem]
          · rw [(ih _ i).2 hex, hh1]
        · intro hnex
          exact absurd ⟨x, List.mem_cons_self x xs, hid, hx⟩ hnex
      · have hh1 : removeRestrictedDomains h x E.getPermittedDomains i = h i := by
          unfold removeRestrictedDomains
          rw [if_neg (fun he => hid he.symm)]
        constructor
        · rintro ⟨r, hr, hri, hrk⟩
          rcases List.mem_cons.mp hr with h' | h'
          · exact absurd (h' ▸ hri) hid
          · rw [(ih _ i).1 ⟨r, h', hri, hrk⟩, hh1]
        · intro hnex
          have hnex' : ¬∃ r ∈ xs, r.id = i ∧ r.elementsFilter = E.elementsFilter := by
            rintro ⟨r, hr, hp⟩
            exact hnex ⟨r, List.mem_cons_of_mem x hr, hp⟩
          rw [(ih _ i).2 hnex', hh1]
    · rw [if_neg hx]
      constructor
      · rintro ⟨r, hr, hri, hrk⟩
        rcases List.mem_cons.mp hr with h' | h'
        · exact absurd (h' ▸ hrk) hx
        · exact (ih h i).1 ⟨r, h', hri, hrk⟩
      · intro hnex
        refine (ih h i).2 ?_
        rintro ⟨r, hr, hp⟩
        exact hnex ⟨r, List.mem_cons_of_mem x hr, hp⟩

theorem rollbackExceptionRule_frame (cf : ContentFilter) (E : Rule) :
    (cf.rollbackExceptionRule E).contentRules = cf.contentRules ∧
    (cf.rollbackExceptionRule E).exceptionRulesMap = cf.exceptionRulesMap ∧
    (cf.rollbackExceptionRule E).dirty = cf.dirty := by
  unfold rollbackExceptionRule
  split <;> exact ⟨rfl, rfl, rfl⟩

theorem rollbackExceptionRule_of_regular (cf : ContentFilter) (E : Rule)
    (hE : E.whiteListRule = false) : cf.rollbackExceptionRule E = cf := by
  unfold rollbackExceptionRule
  rw [if_pos hE]

theorem rollbackExceptionRule_hit (cf : ContentFilter) (E : Rule)
    (hE : E.whiteListRule = true) (i : Nat)
    (hex : ∃ r ∈ cf.contentRules, r.id = i ∧ r.elementsFilter = E.elementsFilter) :
    (cf.rollbackExceptionRule E).restricted i = cf.restricted i \ E.permittedDomains := by
  unfold rollbackExceptionRule
  rw [if_neg (by rw [hE]; exact fun h => Bool.noConfusion h)]
  exact (rollbackFold_eq E cf.contentRules cf.restricted i).1 hex

theorem rollbackExceptionRule_miss (cf : ContentFilter) (E : Rule) (i : Nat)
    (hnex : ¬∃ r ∈ cf.contentRules, r.id = i ∧ r.elementsFilter = E.elementsFilter) :
    (cf.rollbackExceptionRule E).restricted i = cf.restricted i := by
  unfold rollbackExceptionRule
  by_cases hE : E.whiteListRule = false
  · rw [if_pos hE]
  · rw [if_neg hE]
    exact (rollbackFold_eq E cf.contentRules cf.restricted i).2 hnex

/-! ### Decomposition of `addRule` and `removeRule` -/

theorem addRule_restricted (cf : ContentFilter) (r : Rule) :
    (cf.addRule r).restricted = cf.restricted := by
  unfold addRule
  by_cases h1 : truthy r.tagName = false
  · rw [if_pos h1]
  · rw [if_neg h1]
    by_cases h2 : r.whiteListRule
    · rw [if_pos h2]
    · rw [if_neg h2]

theorem addRule_contentRules_white (cf : ContentFilter) (r : Rule)
    (h2 : r.whiteListRule = true) :
    (cf.addRule r).contentRules = cf.contentRules := by
  unfold addRule
  by_cases h1 : truthy r.tagName = false
  · rw [if_pos h1]
  · rw [if_neg h1, if_pos h2]

theorem addRule_map_white (cf : ContentFilter) (r : Rule)
    (h1 : truthy r.tagName = true) (h2 : r.whiteListRule = true) :
    (cf.addRule r).exceptionRulesMap
      = cf.exceptionRulesMap.put (keyStr r.elementsFilter) r := by
  unfold addRule
  rw [if_neg (by rw [h1]; exact fun h => Bool.noConfusion h), if_pos h2]

theorem removeRule_parts (cf : ContentFilter) (r : Rule) :
    (cf.removeRule r).contentRules = Collections.removeRule cf.contentRules r ∧
    (cf.removeRule r).exceptionRulesMap
      = cf.exceptionRulesMap.remove (keyStr r.elementsFilter) r ∧
    (cf.removeRule r).dirty = true ∧
    (cf.removeRule r).restricted
      = ({ cf with
           contentRules := Collections.removeRule cf.contentRules r,
           exceptionRulesMap :=
             cf.exceptionRulesMap.remove (keyStr r.elementsFilter) r }.rollbackExceptionRule
           r).restricted := by
  unfold removeRule
  refine ⟨?_, ?_, rfl, rfl⟩
  · exact (rollbackExceptionRule_frame _ r).1
  · exact (rollbackExceptionRule_frame _ r).2.1

/-! ### The query accumulators, as filter and flat-map -/

theorem ruleFold_some (p : Rule → Bool) :
    ∀ (l : List Rule) (a : List Rule),
      l.foldl (fun result rule =>
        if p rule then
          match result with
          | none => some [rule]
          | some acc => some (acc ++ [rule])
        else result) (some a) = some (a ++ l.filter p) := by
  intro l
  induction l with
  | nil => intro a; simp
  | cons x xs ih =>
    intro a
    simp only [List.foldl_cons]
    by_cases hp : p x = true
    · rw [if_pos hp]
      show xs.foldl _ (some (a ++ [x])) = _
      rw [ih (a ++ [x]), List.filter_cons_of_pos hp]
      simp
    · rw [if_neg hp, ih a, List.filter_cons_of_neg (by simpa using hp)]

theorem ruleFold_none (p : Rule → Bool) (l : List Rule) :
    l.foldl (fun result rule =>
      if p rule then
        match result with
        | none => some [rule]
        | some acc => some (acc ++ [rule])
      else result) none
      = if l.filter p = [] then none else some (l.filter p) := by
  induction l with
  | nil => simp
  | cons x xs ih =>
    simp only [List.foldl_cons]
    by_cases hp : p x = true
    · rw [if_pos hp]
      show xs.foldl _ (some [x]) = _
      rw [ruleFold_some p xs [x], List.filter_cons_of_pos hp]
      rw [if_neg (by simp)]
      simp
    · rw [if_neg hp, ih, List.filter_cons_of_neg (by simpa using hp)]

theorem elemFold_some {Doc Elem : Type} (tr : Rule → Doc → List Elem) (doc : Doc) :
    ∀ (l : List Rule) (a : List Elem),
      l.foldl (fun result rule =>
        if 0 < (tr rule doc).length then
          match result with
          | none => some (tr rule doc)
          | some acc => some (acc ++ tr rule doc)
        else result) (some a) = some (a ++ l.flatMap (fun rule => tr rule doc)) := by
  intro l
  induction l with
  | nil => intro a; simp
  | cons x xs ih =>
    intro a
    simp only [List.foldl_cons, List.flatMap_cons]
    by_cases hp : 0 < (tr x doc).length
    · rw [if_pos hp]
      show xs.foldl _ (some (a ++ tr x doc)) = _
      rw [ih (a ++ tr x doc)]
      simp
    · rw [if_neg hp]
      have hnil : tr x doc = [] := by
        cases he : tr x doc
        · rfl
        · rw [he] at hp
          simp at hp
      rw [ih a, hnil]
      simp

theorem elemFold_none {Doc Elem : Type} (tr : Rule → Doc → List Elem) (doc : Doc)
    (l : List Rule) :
    l.foldl (fun result rule =>
      if 0 < (tr rule doc).length then
        match result with
        | none => some (tr rule doc)
        | some acc => some (acc ++ tr rule doc)
      else result) none
      = if 0 < (l.flatMap (fun rule => tr rule doc)).length then
          some (l.flatMap (fun rule => tr rule doc))
        else none := by
  induction l with
  | nil => simp
  | cons x xs ih =>
    simp only [List.foldl_cons, List.flatMap_cons]
    by_cases hp : 0 < (tr x doc).length
    · rw [if_pos hp]
      show xs.foldl _ (some (tr x doc)) = _
      rw [elemFold_some tr doc xs (tr x doc)]
      have hlen : 0 < (tr x doc ++ xs.flatMap (fun rule => tr rule doc)).length := by
        rw [List.length_append]
        omega
      rw [if_pos hlen]
    · rw [if_neg hp]
      have hnil : tr x doc = [] := by
        cases he : tr x doc
        · rfl
        · rw [he] at hp
          simp at hp
      rw [ih, hnil]
      simp

theorem getRulesForDomain_rebuilt (cf : ContentFilter) (d : String) :
    ((if cf.dirty then cf.rebuild else cf).getRulesForDomain d) = cf.getRulesForDomain d := by
  by_cases h : cf.dirty
  · rw [if_pos h]
    unfold getRulesForDomain
    have hcl : cf.rebuild.dirty = false := (rebuild_frame cf).2.2
    rw [if_neg (by rw [hcl]; exact fun hc => Bool.noConfusion hc), if_pos h]
  · rw [if_neg h]

theorem getMatchedElements_run {Doc Elem : Type} (tr : Rule → Doc → List Elem)
    (cf : ContentFilter) (doc : Doc) (d : String) :
    ContentFilter.getMatchedElements tr cf doc d
      = ((cf.getRulesForDomain d).1,
         getMatchedElementsForRules tr doc (cf.getRulesForDomain d).2) := by
  simp only [getMatchedElements]
  rw [getRulesForDomain_rebuilt cf d]
  cases hp : (cf.getRulesForDomain d).2 with
  | none => rfl
  | some rs => rfl

end ContentFilter

/-! ### Concrete rule objects and states used by counterexamples and witnesses -/

/-- A regular (non-whitelist) rule under grouping key "k", with no domain
restrictions of its own. -/
def regRuleK : Rule :=
  { id := 0, tagName := some "div", elementsFilter := some "k",
    whiteListRule := false, permittedDomains := ∅ }

/-- An exception (whitelist) rule under key "k" permitted on "a.com". -/
def excRuleA : Rule :=
  { id := 1, tagName := some "div", elementsFilter := some "k",
    whiteListRule := true, permittedDomains := {"a.com"} }

/-- A second, distinct exception rule object under key "k", also permitted on
"a.com". -/
def excRuleB : Rule :=
  { id := 2, tagName := some "div", elementsFilter := some "k",
    whiteListRule := true, permittedDomains := {"a.com"} }

/-- A regular rule with a truthy `tagName` but an absent `elementsFilter`
(no matching key). -/
def noKeyRule : Rule :=
  { id := 5, tagName := some "div", elementsFilter := none,
    whiteListRule := false, permittedDomains := ∅ }

/-- A regular rule with an absent `tagName` but a present matching key. -/
def noTagRule : Rule :=
  { id := 6, tagName := none, elementsFilter := some "k",
    whiteListRule := false, permittedDomains := ∅ }

/-- A state reached through the public interface: one regular rule and one
exception rule under key "k", after a query whose rebuild merged the
exception's permitted domains into the regular rule's restricted set
(`restricted 0 = {"a.com"}`, `dirty = false`). -/
def appliedState : ContentFilter :=
  (((ContentFilter.empty.addRule regRuleK).addRule excRuleA).getRulesForDomain "x").1

/-- The same rule set before any query: `dirty` is still true. -/
def dirtyState : ContentFilter :=
  (ContentFilter.empty.addRule regRuleK).addRule excRuleA

/-- A filter holding just the one regular rule under key "k". -/
def oneRegState : ContentFilter := ContentFilter.empty.addRule regRuleK

/-- Three regular rules on distinct keys, unrestricted, added in order. -/
def regRule1 : Rule :=
  { id := 11, tagName := some "a", elementsFilter := some "k1",
    whiteListRule := false, permittedDomains := ∅ }

def regRule2 : Rule :=
  { id := 12, tagName := some "b", elementsFilter := some "k2",
    whiteListRule := false, permittedDomains := ∅ }

def regRule3 : Rule :=
  { id := 13, tagName := some "c", elementsFilter := some "k3",
    whiteListRule := false, permittedDomains := ∅ }

def threeRulesState : ContentFilter :=
  ContentFilter.create [regRule1, regRule2, regRule3]

/-! ### Claim C1 -/

/-- C1 counterexample: in a reachable state where another exception sharing the
key had already contributed "a.com" to the regular rule's restricted set,
adding exception `excRuleB` (permitted on "a.com") and then removing it does
NOT restore the regular rule's restricted-domain set: the set-level rollback
subtracts "a.com" even though it was contributed by `excRuleA`. -/
theorem exception_roundtrip_counterexample :
    appliedState.restricted regRuleK.id = {"a.com"} ∧
    ((appliedState.addRule excRuleB).removeRule excRuleB).restricted regRuleK.id
      ≠ appliedState.restricted regRuleK.id := by
  constructor
  · decide
  · decide

/-- C1 (amended): adding exception E and then removing it (with no intervening
operations) sets every regular rule R sharing E's key to the prior restricted
set minus E's permitted domains, whatever the stale flag was beforehand; this
restores the prior set exactly when the prior set was disjoint from E's
permitted domains. -/
theorem exception_roundtrip_amended (cf : ContentFilter) (b : Bool) (E R : Rule)
    (hE : E.whiteListRule = true) (_hT : truthy E.tagName = true)
    (hR : R ∈ cf.contentRules) (hRreg : R.whiteListRule = false)
    (hkey : R.elementsFilter = E.elementsFilter) :
    ((({ cf with dirty := b }).addRule E).removeRule E).restricted R.id
      = cf.restricted R.id \ E.permittedDomains ∧
    (Disjoint (cf.restricted R.id) E.permittedDomains →
      ((({ cf with dirty := b }).addRule E).removeRule E).restricted R.id
        = cf.restricted R.id) := by
  have hne : R ≠ E := by
    intro he
    rw [he, hE] at hRreg
    exact Bool.noConfusion hRreg
  have hmain : ((({ cf with dirty := b }).addRule E).removeRule E).restricted R.id
      = cf.restricted R.id \ E.permittedDomains := by
    set cfb : ContentFilter := { cf with dirty := b } with hcfb
    set cfa : ContentFilter := cfb.addRule E with hcfa
    have hacr : cfa.contentRules = cf.contentRules := by
      rw [hcfa, ContentFilter.addRule_contentRules_white cfb E hE]
    have hares : cfa.restricted = cf.restricted := by
      rw [hcfa, ContentFilter.addRule_restricted cfb E]
    have hparts := ContentFilter.removeRule_parts cfa E
    rw [hparts.2.2.2]
    have hmem : R ∈ Collections.removeRule cfa.contentRules E := by
      rw [hacr]
      exact Collections.mem_removeRule_of_ne cf.contentRules E hR hne
    have hhit := ContentFilter.rollbackExceptionRule_hit
      ({ cfa with
         contentRules := Collections.removeRule cfa.contentRules E,
         exceptionRulesMap :=
           cfa.exceptionRulesMap.remove (keyStr E.elementsFilter) E }) E hE R.id
      ⟨R, hmem, rfl, hkey⟩
    rw [hhit]
    show cfa.restricted R.id \ E.permittedDomains = cf.restricted R.id \ E.permittedDomains
    rw [hares]
  exact ⟨hmain, fun hd => by rw [hmain, hd.sdiff_eq_left]⟩

/-- Witness for the amended C1: a concrete round trip on a filter with one
unrestricted regular rule restores the restricted set exactly. -/
theorem exception_roundtrip_amended_witness :
    ((({ oneRegState with dirty := false }).addRule excRuleA).removeRule excRuleA).restricted
        regRuleK.id
      = oneRegState.restricted regRuleK.id :=
  (exception_roundtrip_amended oneRegState false excRuleA regRuleK rfl rfl (by decide) rfl
    rfl).2 (by
      show Disjoint (∅ : Finset String) excRuleA.permittedDomains
      exact Finset.disjoint_empty_left _)

/-! ### Claim C2 -/

theorem getRulesForDomain_snd (cf : ContentFilter) (d : String) :
    (cf.getRulesForDomain d).2
      = if ((cf.getRulesForDomain d).1.contentRules.filter
            (fun r => r.isPermitted (cf.getRulesForDomain d).1.restricted d)) = [] then none
        else some ((cf.getRulesForDomain d).1.contentRules.filter
            (fun r => r.isPermitted (cf.getRulesForDomain d).1.restricted d)) := by
  have hsnd : (cf.getRulesForDomain d).2
      = (cf.getRulesForDomain d).1.contentRules.foldl (fun result rule =>
          if rule.isPermitted (cf.getRulesForDomain d).1.restricted d then
            match result with
            | none => some [rule]
            | some acc => some (acc ++ [rule])
          else result) none := rfl
  rw [hsnd]
  exact ContentFilter.ruleFold_none _ _

/-- C2: `getRulesForDomain` returns exactly the `isPermitted`-filtered
subsequence of `contentRules` in insertion order (evaluated against the
post-rebuild state returned by the query) and returns `none` — never an empty
sequence and never an error — exactly when no regular rule is permitted on the
domain. -/
theorem getRulesForDomain_correct (cf : ContentFilter) (d : String) :
    ((cf.getRulesForDomain d).2 = none ↔
      ((cf.getRulesForDomain d).1.contentRules.filter
        (fun r => r.isPermitted (cf.getRulesForDomain d).1.restricted d)) = []) ∧
    (∀ l, (cf.getRulesForDomain d).2 = some l →
      l ≠ [] ∧
      l = (cf.getRulesForDomain d).1.contentRules.filter
            (fun r => r.isPermitted (cf.getRulesForDomain d).1.restricted d)) := by
  have key := getRulesForDomain_snd cf d
  constructor
  · rw [key]
    by_cases hf : ((cf.getRulesForDomain d).1.contentRules.filter
        (fun r => r.isPermitted (cf.getRulesForDomain d).1.restricted d)) = []
    · rw [if_pos hf]
      simp [hf]
    · rw [if_neg hf]
      simp [hf]
  · intro l hl
    rw [key] at hl
    by_cases hf : ((cf.getRulesForDomain d).1.contentRules.filter
        (fun r => r.isPermitted (cf.getRulesForDomain d).1.restricted d)) = []
    · rw [if_pos hf] at hl
      exact absurd hl (by simp)
    · rw [if_neg hf] at hl
      have he := Option.some.inj hl
      exact ⟨he ▸ hf, he.symm⟩

/-- Witness for C2: three regular rules added in order R1, R2, R3, all
permitted on "x.com", are returned in insertion order. -/
theorem getRulesForDomain_correct_witness :
    [regRule1, regRule2, regRule3] ≠ [] ∧
    [regRule1, regRule2, regRule3]
      = (threeRulesState.getRulesForDomain "x.com").1.contentRules.filter
          (fun r => r.isPermitted (threeRulesState.getRulesForDomain "x.com").1.restricted
            "x.com") :=
  (getRulesForDomain_correct threeRulesState "x.com").2 [regRule1, regRule2, regRule3]
    (by decide)

/-! ### Claim C3 -/

/-- C3: the first query after a mutation (the `dirty` flag is set) rebuilds:
afterwards the returned state is clean, every currently-present exception
rule's permitted-domain set is contained in the restricted-domain set of every
regular rule sharing its matching key, further queries on the clean state
leave the state (in particular every restricted-domain set) unchanged, and
`getMatchedElements` performs the same rebuild as `getRulesForDomain`. The
well-formedness hypothesis ties the index's size counter to its buckets, as
holds for every state built through the public interface. -/
theorem lazy_rebuild_correct (cf : ContentFilter) (d : String)
    (hwf : cf.exceptionRulesMap.size = 0 → ∀ k, cf.exceptionRulesMap.map k = [])
    (hd : cf.dirty = true) :
    ((cf.getRulesForDomain d).1.dirty = false) ∧
    (∀ R ∈ (cf.getRulesForDomain d).1.contentRules,
      ∀ E ∈ (cf.getRulesForDomain d).1.exceptionRulesMap.get (keyStr R.elementsFilter),
        R.elementsFilter = E.elementsFilter →
          E.permittedDomains ⊆ (cf.getRulesForDomain d).1.restricted R.id) ∧
    (∀ d' : String, ((cf.getRulesForDomain d).1.getRulesForDomain d').1
        = (cf.getRulesForDomain d).1) ∧
    (∀ (Doc Elem : Type) (tr : Rule → Doc → List Elem) (doc : Doc),
      (ContentFilter.getMatchedElements tr cf doc d).1 = (cf.getRulesForDomain d).1) := by
  have hfst : (cf.getRulesForDomain d).1 = cf.rebuild := by
    rw [ContentFilter.getRulesForDomain_fst, if_pos hd]
  refine ⟨?_, ?_, ?_, ?_⟩
  · rw [hfst]
    exact (ContentFilter.rebuild_frame cf).2.2
  · rw [hfst]
    intro R hR E hE hke
    rw [(ContentFilter.rebuild_frame cf).1] at hR
    have hE' : E ∈ cf.exceptionRulesMap.get (keyStr R.elementsFilter) := by
      unfold MultiMap.get at hE ⊢
      rw [(ContentFilter.rebuild_frame cf).2.1] at hE
      exact hE
    exact ContentFilter.rebuild_achieves cf hwf hd R hR E hE' hke
  · intro d'
    exact ContentFilter.getRulesForDomain_of_clean _ d'
      (ContentFilter.getRulesForDomain_fst_dirty cf d)
  · intro Doc Elem tr doc
    rw [ContentFilter.getMatchedElements_run]

/-- Witness for C3: on the concrete dirty two-rule state, the exception's
permitted domain set is contained in the regular rule's restricted set right
after the first query. -/
theorem lazy_rebuild_correct_witness :
    excRuleA.permittedDomains
      ⊆ (dirtyState.getRulesForDomain "q").1.restricted regRuleK.id :=
  (lazy_rebuild_correct dirtyState "q" (fun h => absurd h (by decide)) rfl).2.1
    regRuleK (by decide) excRuleA (by decide) rfl

/-! ### Claim C4 -/

/-- C4 counterexample: `removeRule` on `excRuleB`, an exception rule that was
never added to `appliedState`, is not a no-op — the unconditional rollback
pass subtracts its permitted domains from the sharing regular rule's
restricted-domain set. -/
theorem removeRule_noop_counterexample :
    excRuleB ∉ appliedState.contentRules ∧
    excRuleB ∉ appliedState.exceptionRulesMap.map (keyStr excRuleB.elementsFilter) ∧
    (appliedState.removeRule excRuleB).restricted regRuleK.id
      ≠ appliedState.restricted regRuleK.id := by
  refine ⟨by decide, by decide, by decide⟩

/-- C4 (amended): `removeRule` on a rule absent from `regularRules` and from
its key's bucket of the exception index leaves `regularRules` and the
exception index unchanged; the restricted-domain sets are also unchanged
provided the rule is not an exception rule, or its permitted domains are
disjoint from the restricted sets of the regular rules sharing its key — for a
never-added exception rule with overlapping domains the unconditional rollback
pass does mutate them. -/
theorem removeRule_noop_amended (cf : ContentFilter) (r : Rule)
    (hc : r ∉ cf.contentRules)
    (hm : r ∉ cf.exceptionRulesMap.map (keyStr r.elementsFilter))
    (hroll : r.whiteListRule = false ∨
      ∀ R ∈ cf.contentRules, R.elementsFilter = r.elementsFilter →
        Disjoint (cf.restricted R.id) r.permittedDomains) :
    (cf.removeRule r).contentRules = cf.contentRules ∧
    (cf.removeRule r).exceptionRulesMap.map = cf.exceptionRulesMap.map ∧
    (cf.removeRule r).exceptionRulesMap.size = cf.exceptionRulesMap.size ∧
    (∀ i, (cf.removeRule r).restricted i = cf.restricted i) := by
  have hparts := ContentFilter.removeRule_parts cf r
  have hrm : Collections.removeRule cf.contentRules r = cf.contentRules :=
    Collections.removeRule_of_not_mem cf.contentRules r hc
  refine ⟨?_, ?_, ?_, ?_⟩
  · rw [hparts.1, hrm]
  · rw [hparts.2.1]
    exact MultiMap.remove_map_of_not_mem cf.exceptionRulesMap _ r hm
  · rw [hparts.2.1]
    exact MultiMap.remove_size_of_not_mem cf.exceptionRulesMap _ r hm
  · intro i
    rw [hparts.2.2.2]
    set cf2 : ContentFilter :=
      { cf with
        contentRules := Collections.removeRule cf.contentRules r,
        exceptionRulesMap :=
          cf.exceptionRulesMap.remove (keyStr r.elementsFilter) r } with hcf2
    have hcr : cf2.contentRules = cf.contentRules := by
      rw [hcf2]
      exact hrm
    rcases hroll with hreg | hdis
    · rw [ContentFilter.rollbackExceptionRule_of_regular cf2 r hreg]
    · by_cases hex : ∃ R ∈ cf2.contentRules, R.id = i ∧ R.elementsFilter = r.elementsFilter
      · rcases hex with ⟨R, hRmem, hRid, hRkey⟩
        have hRmem' : R ∈ cf.contentRules := by
          rw [hcr] at hRmem
          exact hRmem
        by_cases hw : r.whiteListRule = true
        · rw [ContentFilter.rollbackExceptionRule_hit cf2 r hw i ⟨R, hRmem, hRid, hRkey⟩]
          have hdisj : Disjoint (cf2.restricted i) r.permittedDomains := by
            have := hdis R hRmem' hRkey
            rw [hRid] at this
            exact this
          exact hdisj.sdiff_eq_left
        · rw [ContentFilter.rollbackExceptionRule_of_regular cf2 r
            (Bool.eq_false_iff.mpr hw)]
      · rw [ContentFilter.rollbackExceptionRule_miss cf2 r i hex]

/-- Witness for the amended C4: removing a never-added regular rule from the
concrete applied state leaves the regular-rule collection unchanged. -/
theorem removeRule_noop_amended_witness :
    (appliedState.removeRule noTagRule).contentRules = appliedState.contentRules :=
  (removeRule_noop_amended appliedState noTagRule (by decide) (by decide) (Or.inl rfl)).1

/-! ### Claim C5 -/

/-- C5 counterexample: `addRule` gates on `tagName`, not on the matching key
(`elementsFilter`). A rule with an absent matching key but truthy `tagName` is
accepted into `contentRules` with `dirty` set, and a rule with a present
matching key but absent `tagName` is the one that is silently dropped. -/
theorem addRule_missing_key_counterexample :
    noKeyRule.elementsFilter = none ∧ truthy noKeyRule.tagName = true ∧
    (ContentFilter.empty.addRule noKeyRule).contentRules = [noKeyRule] ∧
    (ContentFilter.empty.addRule noKeyRule).dirty = true ∧
    noTagRule.elementsFilter = some "k" ∧
    (ContentFilter.empty.addRule noTagRule) = ContentFilter.empty := by
  refine ⟨rfl, rfl, by decide, by decide, rfl, rfl⟩

/-- C5 (amended): `addRule` silently ignores exactly the rules whose `tagName`
is absent or empty — the matching key is not consulted: a rule with truthy
`tagName` is always accepted (routed by its whitelist flag, an exception rule
being appended to its key's bucket), even when its matching key is absent. -/
theorem addRule_tagName_gate (cf : ContentFilter) (r : Rule) :
    (truthy r.tagName = false → cf.addRule r = cf) ∧
    (truthy r.tagName = true →
      (cf.addRule r).dirty = true ∧
      (r.whiteListRule = true →
        (cf.addRule r).contentRules = cf.contentRules ∧
        (cf.addRule r).exceptionRulesMap.map (keyStr r.elementsFilter)
          = cf.exceptionRulesMap.map (keyStr r.elementsFilter) ++ [r]) ∧
      (r.whiteListRule = false →
        (cf.addRule r).contentRules = cf.contentRules ++ [r] ∧
        (cf.addRule r).exceptionRulesMap = cf.exceptionRulesMap)) := by
  constructor
  · intro h
    unfold ContentFilter.addRule
    rw [if_pos h]
  · intro h
    have hng : ¬(truthy r.tagName = false) := by
      rw [h]
      exact fun hc => Bool.noConfusion hc
    refine ⟨?_, ?_, ?_⟩
    · unfold ContentFilter.addRule
      rw [if_neg hng]
      by_cases h2 : r.whiteListRule = true
      · rw [if_pos h2]
      · rw [if_neg h2]
    · intro h2
      constructor
      · exact ContentFilter.addRule_contentRules_white cf r h2
      · rw [ContentFilter.addRule_map_white cf r h h2]
        exact MultiMap.put_map_self cf.exceptionRulesMap _ r
    · intro h2
      unfold ContentFilter.addRule
      rw [if_neg hng, if_neg (by rw [h2]; exact fun hc => Bool.noConfusion hc)]
      exact ⟨rfl, rfl⟩

/-- Witness for the amended C5: the key-less rule is appended to
`contentRules`. -/
theorem addRule_tagName_gate_witness :
    (ContentFilter.empty.addRule noKeyRule).contentRules
      = ContentFilter.empty.contentRules ++ [noKeyRule] :=
  (((addRule_tagName_gate ContentFilter.empty noKeyRule).2 rfl).2.2 rfl).1

/-! ### Claim C6 -/

/-- C6: the code violates the claim — `clear()` replaces the backing map (so
no key holds a value afterwards) but does not reset the `size` counter, so
`isEmpty()` still returns false after clearing a non-empty map. -/
theorem multiMap_clear_size_bug :
    (∀ k, ((MultiMap.empty.put "k" regRuleK).clear).map k = []) ∧
    ((MultiMap.empty.put "k" regRuleK).clear).isEmpty = false :=
  ⟨fun _ => rfl, by decide⟩

/-! ### Claim C7 -/

theorem MultiMap.remove_self_of_ne_nil (m : MultiMap) (k : String) (v : Rule)
    (h0 : m.map k ≠ [])
    (h1 : Collections.removeRule (m.map k) v ≠ []) :
    (m.remove k v).map k = Collections.removeRule (m.map k) v ∧
    (m.remove k v).size = m.size := by
  simp only [MultiMap.remove]
  rw [if_neg h0, if_neg h1]
  constructor
  · simp
  · rfl

/-- C7: adding the same exception rule reference twice under the same key and
removing it once removes only the first occurrence from its bucket (the
occurrence count drops by exactly one, leaving one more occurrence than before
the adds), and after the next query's rebuild the remaining occurrence still
restricts every regular rule sharing the key. -/
theorem duplicate_add_remove_once (cf : ContentFilter) (E : Rule) (d : String)
    (hwf : cf.exceptionRulesMap.size = 0 → ∀ k, cf.exceptionRulesMap.map k = [])
    (hE : E.whiteListRule = true) (hT : truthy E.tagName = true)
    (hEnc : E ∉ cf.contentRules) :
    ((((cf.addRule E).addRule E).removeRule E).exceptionRulesMap.map
        (keyStr E.elementsFilter)).count E
      = (cf.exceptionRulesMap.map (keyStr E.elementsFilter)).count E + 1 ∧
    (∀ R ∈ ((((cf.addRule E).addRule E).removeRule E).getRulesForDomain d).1.contentRules,
      R.elementsFilter = E.elementsFilter →
        E.permittedDomains ⊆
          ((((cf.addRule E).addRule E).removeRule E).getRulesForDomain d).1.restricted
            R.id) := by
  have hmap1 : (cf.addRule E).exceptionRulesMap
      = cf.exceptionRulesMap.put (keyStr E.elementsFilter) E :=
    ContentFilter.addRule_map_white cf E hT hE
  have hmap2 : ((cf.addRule E).addRule E).exceptionRulesMap
      = (cf.exceptionRulesMap.put (keyStr E.elementsFilter) E).put (keyStr E.elementsFilter)
          E := by
    rw [ContentFilter.addRule_map_white (cf.addRule E) E hT hE, hmap1]
  have hbucket2 : ((cf.exceptionRulesMap.put (keyStr E.elementsFilter) E).put
        (keyStr E.elementsFilter) E).map (keyStr E.elementsFilter)
      = (cf.exceptionRulesMap.map (keyStr E.elementsFilter) ++ [E]) ++ [E] := by
    rw [MultiMap.put_map_self, MultiMap.put_map_self]
  have hcr2 : ((cf.addRule E).addRule E).contentRules = cf.contentRules := by
    rw [ContentFilter.addRule_contentRules_white _ E hE,
        ContentFilter.addRule_contentRules_white _ E hE]
  have hne0 : ((cf.exceptionRulesMap.put (keyStr E.elementsFilter) E).put
        (keyStr E.elementsFilter) E).map (keyStr E.elementsFilter) ≠ [] := by
    rw [hbucket2]
    simp
  have hcount2 : (((cf.exceptionRulesMap.put (keyStr E.elementsFilter) E).put
        (keyStr E.elementsFilter) E).map (keyStr E.elementsFilter)).count E
      = (cf.exceptionRulesMap.map (keyStr E.elementsFilter)).count E + 2 := by
    rw [hbucket2]
    simp [List.count_append]
  have hEin : E ∈ ((cf.exceptionRulesMap.put (keyStr E.elementsFilter) E).put
        (keyStr E.elementsFilter) E).map (keyStr E.elementsFilter) := by
    rw [hbucket2]
    simp
  have hcountrm : (Collections.removeRule
        (((cf.exceptionRulesMap.put (keyStr E.elementsFilter) E).put
          (keyStr E.elementsFilter) E).map (keyStr E.elementsFilter)) E).count E + 1
      = (cf.exceptionRulesMap.map (keyStr E.elementsFilter)).count E + 2 := by
    rw [Collections.count_removeRule _ E hEin, hcount2]
  have hrm_ne : Collections.removeRule
        (((cf.exceptionRulesMap.put (keyStr E.elementsFilter) E).put
          (keyStr E.elementsFilter) E).map (keyStr E.elementsFilter)) E ≠ [] := by
    intro hnil
    rw [hnil] at hcountrm
    simp at hcountrm
  have hremove := MultiMap.remove_self_of_ne_nil
    ((cf.exceptionRulesMap.put (keyStr E.elementsFilter) E).put (keyStr E.elementsFilter) E)
    (keyStr E.elementsFilter) E hne0 hrm_ne
  have hparts := ContentFilter.removeRule_parts ((cf.addRule E).addRule E) E
  have hsmap : (((cf.addRule E).addRule E).removeRule E).exceptionRulesMap
      = ((cf.exceptionRulesMap.put (keyStr E.elementsFilter) E).put
          (keyStr E.elementsFilter) E).remove (keyStr E.elementsFilter) E := by
    rw [hparts.2.1, hmap2]
  have hc1 : ((((cf.addRule E).addRule E).removeRule E).exceptionRulesMap.map
        (keyStr E.elementsFilter)).count E
      = (cf.exceptionRulesMap.map (keyStr E.elementsFilter)).count E + 1 := by
    rw [hsmap, hremove.1]
    omega
  refine ⟨hc1, ?_⟩
  have hscr : (((cf.addRule E).addRule E).removeRule E).contentRules = cf.contentRules := by
    rw [hparts.1, hcr2]
    exact Collections.removeRule_of_not_mem _ E hEnc
  have hsdirty : (((cf.addRule E).addRule E).removeRule E).dirty = true := hparts.2.2.1
  have hsize2 : ((cf.exceptionRulesMap.put (keyStr E.elementsFilter) E).put
        (keyStr E.elementsFilter) E).size ≠ 0 := by
    have hb1 : (cf.exceptionRulesMap.put (keyStr E.elementsFilter) E).map
        (keyStr E.elementsFilter) ≠ [] := by
      rw [MultiMap.put_map_self]
      simp
    have h2 : ((cf.exceptionRulesMap.put (keyStr E.elementsFilter) E).put
          (keyStr E.elementsFilter) E).size
        = (cf.exceptionRulesMap.put (keyStr E.elementsFilter) E).size := by
      rw [MultiMap.put_size, if_neg hb1]
    by_cases hb : cf.exceptionRulesMap.map (keyStr E.elementsFilter) = []
    · have h1 : (cf.exceptionRulesMap.put (keyStr E.elementsFilter) E).size
          = cf.exceptionRulesMap.size + 1 := by
        rw [MultiMap.put_size, if_pos hb]
      rw [h2, h1]
      omega
    · have hms : cf.exceptionRulesMap.size ≠ 0 :=
        fun h0 => hb (hwf h0 (keyStr E.elementsFilter))
      have h1 : (cf.exceptionRulesMap.put (keyStr E.elementsFilter) E).size
          = cf.exceptionRulesMap.size := by
        rw [MultiMap.put_size, if_neg hb]
      rw [h2, h1]
      exact hms
  have hssize : (((cf.addRule E).addRule E).removeRule E).exceptionRulesMap.size ≠ 0 := by
    rw [hsmap, hremove.2]
    exact hsize2
  have hEs : E ∈ (((cf.addRule E).addRule E).removeRule E).exceptionRulesMap.map
      (keyStr E.elementsFilter) := by
    have hpos : 0 < ((((cf.addRule E).addRule E).removeRule E).exceptionRulesMap.map
        (keyStr E.elementsFilter)).count E := by
      rw [hc1]
      omega
    exact List.count_pos_iff.mp hpos
  intro R hR hke
  have hfst : ((((cf.addRule E).addRule E).removeRule E).getRulesForDomain d).1
      = (((cf.addRule E).addRule E).removeRule E).rebuild := by
    rw [ContentFilter.getRulesForDomain_fst, if_pos hsdirty]
  rw [hfst] at hR ⊢
  rw [(ContentFilter.rebuild_frame _).1] at hR
  have hwfs : (((cf.addRule E).addRule E).removeRule E).exceptionRulesMap.size = 0 →
      ∀ k, (((cf.addRule E).addRule E).removeRule E).exceptionRulesMap.map k = [] :=
    fun h0 => absurd h0 hssize
  have hEget : E ∈ (((cf.addRule E).addRule E).removeRule E).exceptionRulesMap.get
      (keyStr R.elementsFilter) := by
    unfold MultiMap.get
    rw [congrArg keyStr hke]
    exact hEs
  exact ContentFilter.rebuild_achieves _ hwfs hsdirty R hR E hEget hke

/-- Witness for C7: on a filter with one regular rule, adding `excRuleA`
twice and removing it once leaves exactly one occurrence in the bucket. -/
theorem duplicate_add_remove_once_witness :
    ((((oneRegState.addRule excRuleA).addRule excRuleA).removeRule
        excRuleA).exceptionRulesMap.map (keyStr excRuleA.elementsFilter)).count excRuleA
      = (oneRegState.exceptionRulesMap.map (keyStr excRuleA.elementsFilter)).count excRuleA
        + 1 :=
  (duplicate_add_remove_once oneRegState excRuleA "z" (fun _ _ => rfl) rfl rfl (by decide)).1

/-! ### Claim C8 -/

/-- The two mutating calls of the content filter, for reasoning about
arbitrary call sequences. -/
inductive FilterOp where
  | add : Rule → FilterOp
  | remove : Rule → FilterOp

/-- Run a sequence of `addRule`/`removeRule` calls against a state. -/
def runOps (cf : ContentFilter) (ops : List FilterOp) : ContentFilter :=
  ops.foldl (fun c op =>
    match op with
    | FilterOp.add r => c.addRule r
    | FilterOp.remove r => c.removeRule r) cf

/-- The partition invariant: `contentRules` holds only non-whitelist rules and
every bucket of the exception index holds only whitelist rules. -/
def Partitioned (cf : ContentFilter) : Prop :=
  (∀ r ∈ cf.contentRules, r.whiteListRule = false) ∧
  (∀ k : String, ∀ r ∈ cf.exceptionRulesMap.map k, r.whiteListRule = true)

theorem partitioned_addRule (cf : ContentFilter) (x : Rule) (h : Partitioned cf) :
    Partitioned (cf.addRule x) := by
  unfold ContentFilter.addRule
  by_cases h1 : truthy x.tagName = false
  · rw [if_pos h1]
    exact h
  · rw [if_neg h1]
    by_cases h2 : x.whiteListRule = true
    · rw [if_pos h2]
      refine ⟨h.1, ?_⟩
      intro k r hr
      rcases MultiMap.mem_put cf.exceptionRulesMap _ k x hr with hr | hr
      · exact h.2 k r hr
      · rw [hr]
        exact h2
    · rw [if_neg h2]
      refine ⟨?_, h.2⟩
      intro r hr
      rcases List.mem_append.mp hr with hr | hr
      · exact h.1 r hr
      · have hrx : r = x := by simpa using hr
        rw [hrx]
        exact Bool.eq_false_iff.mpr h2

theorem partitioned_removeRule (cf : ContentFilter) (x : Rule) (h : Partitioned cf) :
    Partitioned (cf.removeRule x) := by
  have p := ContentFilter.removeRule_parts cf x
  constructor
  · intro r hr
    rw [p.1] at hr
    exact h.1 r (Collections.mem_removeRule cf.contentRules x hr)
  · intro k r hr
    rw [p.2.1] at hr
    exact h.2 k r (MultiMap.mem_remove cf.exceptionRulesMap _ k x hr)

theorem partitioned_runOps (ops : List FilterOp) :
    ∀ cf : ContentFilter, Partitioned cf → Partitioned (runOps cf ops) := by
  induction ops with
  | nil => intro cf h; exact h
  | cons op ops ih =>
    intro cf h
    simp only [runOps, List.foldl_cons]
    cases op with
    | add r => exact ih (cf.addRule r) (partitioned_addRule cf r h)
    | remove r => exact ih (cf.removeRule r) (partitioned_removeRule cf r h)

theorem partitioned_foldl_add (l : List Rule) :
    ∀ cf : ContentFilter, Partitioned cf →
      Partitioned (l.foldl (fun c r => c.addRule r) cf) := by
  induction l with
  | nil => intro cf h; exact h
  | cons r rs ih =>
    intro cf h
    simp only [List.foldl_cons]
    exact ih (cf.addRule r) (partitioned_addRule cf r h)

theorem partitioned_empty : Partitioned ContentFilter.empty := by
  constructor
  · intro r hr
    simp [ContentFilter.empty] at hr
  · intro k r hr
    simp [ContentFilter.empty, MultiMap.empty] at hr

/-- C8: after every sequence of `addRule`/`removeRule` calls on a constructed
filter, every rule present is in exactly one side of the partition:
`contentRules` holds only non-exception rules, the exception index holds only
exception rules, and no rule is in both. -/
theorem partition_invariant (init : List Rule) (ops : List FilterOp) :
    (∀ r ∈ (runOps (ContentFilter.create init) ops).contentRules,
      r.whiteListRule = false) ∧
    (∀ (k : String) (r : Rule),
      r ∈ (runOps (ContentFilter.create init) ops).exceptionRulesMap.map k →
        r.whiteListRule = true) ∧
    (∀ r : Rule, ¬(r ∈ (runOps (ContentFilter.create init) ops).contentRules ∧
      ∃ k : String, r ∈ (runOps (ContentFilter.create init) ops).exceptionRulesMap.map k)) := by
  have hcreate : Partitioned (ContentFilter.create init) := by
    unfold ContentFilter.create
    exact partitioned_foldl_add init ContentFilter.empty partitioned_empty
  have h := partitioned_runOps ops (ContentFilter.create init) hcreate
  refine ⟨h.1, fun k r => h.2 k r, ?_⟩
  rintro r ⟨hc, k, hm⟩
  have h1 := h.1 r hc
  have h2 := h.2 k r hm
  rw [h1] at h2
  exact Bool.noConfusion h2

/-- Witness for C8: on a concrete run the regular rule in `contentRules` is
non-whitelist and the indexed rule is whitelist. -/
theorem partition_invariant_witness :
    regRuleK.whiteListRule = false ∧ excRuleA.whiteListRule = true :=
  ⟨(partition_invariant [] [FilterOp.add regRuleK, FilterOp.add excRuleA]).1 regRuleK
      (by decide),
   (partition_invariant [] [FilterOp.add regRuleK, FilterOp.add excRuleA]).2.1 "k" excRuleA
      (by decide)⟩

/-! ### Claim C9 -/

/-- C9: `getMatchedElements` returns `none` when the domain query is `none`;
when the query returns rules, the result is `none` exactly when every rule's
traversal yields no elements, and otherwise it is the concatenation of the
per-rule element lists in rule order (empty lists contributing nothing). -/
theorem getMatchedElements_correct {Doc Elem : Type} (tr : Rule → Doc → List Elem)
    (cf : ContentFilter) (doc : Doc) (d : String) :
    ((cf.getRulesForDomain d).2 = none →
      (ContentFilter.getMatchedElements tr cf doc d).2 = none) ∧
    (∀ rs, (cf.getRulesForDomain d).2 = some rs →
      ((ContentFilter.getMatchedElements tr cf doc d).2 = none ↔
        rs.flatMap (fun r => tr r doc) = []) ∧
      (∀ l, (ContentFilter.getMatchedElements tr cf doc d).2 = some l →
        l = rs.flatMap (fun r => tr r doc))) := by
  have hsnd : (ContentFilter.getMatchedElements tr cf doc d).2
      = ContentFilter.getMatchedElementsForRules tr doc (cf.getRulesForDomain d).2 :=
    congrArg Prod.snd (ContentFilter.getMatchedElements_run tr cf doc d)
  constructor
  · intro hnone
    rw [hsnd, hnone]
    rfl
  · intro rs hsome
    have hrs_ne : rs ≠ [] := by
      have key := getRulesForDomain_snd cf d
      rw [hsome] at key
      by_cases hf : ((cf.getRulesForDomain d).1.contentRules.filter
          (fun r => r.isPermitted (cf.getRulesForDomain d).1.restricted d)) = []
      · rw [if_pos hf] at key
        exact absurd key (by simp)
      · rw [if_neg hf] at key
        have := Option.some.inj key
        rw [this]
        exact hf
    have hval : (ContentFilter.getMatchedElements tr cf doc d).2
        = if 0 < (rs.flatMap (fun rule => tr rule doc)).length then
            some (rs.flatMap (fun rule => tr rule doc))
          else none := by
      rw [hsnd, hsome]
      show (if rs = [] then none
        else rs.foldl (fun result rule =>
          if 0 < (tr rule doc).length then
            match result with
            | none => some (tr rule doc)
            | some l => some (l ++ tr rule doc)
          else result) none) = _
      rw [if_neg hrs_ne]
      exact ContentFilter.elemFold_none tr doc rs
    constructor
    · rw [hval]
      by_cases hlen : 0 < (rs.flatMap (fun rule => tr rule doc)).length
      · rw [if_pos hlen]
        constructor
        · intro hco
          exact absurd hco (by simp)
        · intro hfl
          rw [hfl] at hlen
          simp at hlen
      · rw [if_neg hlen]
        have hfl : rs.flatMap (fun rule => tr rule doc) = [] := by
          cases he : rs.flatMap (fun rule => tr rule doc)
          · rfl
          · rw [he] at hlen
            simp at hlen
        simp [hfl]
    · intro l hl
      rw [hval] at hl
      by_cases hlen : 0 < (rs.flatMap (fun rule => tr rule doc)).length
      · rw [if_pos hlen] at hl
        exact (Option.some.inj hl).symm
      · rw [if_neg hlen] at hl
        exact absurd hl (by simp)

/-- Witness for C9: with a traversal returning the rule id and document, the
concrete three-rule state concatenates per-rule results in rule order. -/
theorem getMatchedElements_correct_witness :
    [(11 : Nat), 99, 12, 99, 13, 99]
      = [regRule1, regRule2, regRule3].flatMap
          (fun r => (fun ru doc => [ru.id, doc]) r (99 : Nat)) :=
  ((getMatchedElements_correct (fun ru doc => [ru.id, doc]) threeRulesState (99 : Nat)
        "x.com").2
      [regRule1, regRule2, regRule3] (by decide)).2 [11, 99, 12, 99, 13, 99] (by decide)

/-! ### Claim C10 -/

/-- C10: a query never changes the membership or order of `contentRules` or
the exception index — the returned state differs from the input state at most
in the `dirty` flag and the rules' restricted-domain sets, and
`getMatchedElements` returns the same state as `getRulesForDomain`. -/
theorem query_frame (cf : ContentFilter) (d : String) :
    (cf.getRulesForDomain d).1.contentRules = cf.contentRules ∧
    (cf.getRulesForDomain d).1.exceptionRulesMap = cf.exceptionRulesMap ∧
    (∀ (Doc Elem : Type) (tr : Rule → Doc → List Elem) (doc : Doc),
      (ContentFilter.getMatchedElements tr cf doc d).1 = (cf.getRulesForDomain d).1) := by
  refine ⟨?_, ?_, ?_⟩
  · rw [ContentFilter.getRulesForDomain_fst]
    by_cases h : cf.dirty
    · rw [if_pos h]
      exact (ContentFilter.rebuild_frame cf).1
    · rw [if_neg h]
  · rw [ContentFilter.getRulesForDomain_fst]
    by_cases h : cf.dirty
    · rw [if_pos h]
      exact (ContentFilter.rebuild_frame cf).2.1
    · rw [if_neg h]
  · intro Doc Elem tr doc
    rw [ContentFilter.getMatchedElements_run]

end AdguardContent
